import Mathlib

/-!
Verification of the `json-to-env` flattener and formatter.

The repository has two Rust source files:
  * `src/lib.rs`  — the library: `ParseOptions`, `JsonParser` (field `options`),
    `JsonParser::parse` / `parse_value` / `build_key`, `EnvVar` and its `Display` impl;
  * `src/main.rs` — the binary: its own private copies of `ParseOptions`, `build_key`,
    `EnvVar`/`Display`, plus a stateful `JsonParser` (fields `options` and `vars`)
    whose `parse` delegates to `parse_keys`, which appends into `self.vars`.

This file shallowly embeds both. JSON values (`serde_json::Value`) are modelled as a
mutual inductive family so that all recursion is structural where the source's is;
`Number` is modelled by its decimal text, which is what both the collapse branch
(via `Value::to_string`) and the formatter (via `Display for Number`) consume.
-/

mutual
/-- serde_json `Value`: Null, Bool, Number (carried as its decimal text),
String, Array, Object (field order preserved). -/
inductive Json where
  | null
  | bool (b : Bool)
  | num (text : String)
  | str (s : String)
  | arr (elems : JsonList)
  | obj (fields : JsonFields)
deriving DecidableEq

/-- the elements of a JSON array, in order. -/
inductive JsonList where
  | nil
  | cons (head : Json) (tail : JsonList)
deriving DecidableEq

/-- the fields of a JSON object, in stored (insertion) order. -/
inductive JsonFields where
  | nil
  | cons (name : String) (value : Json) (tail : JsonFields)
deriving DecidableEq
end

/-- view of a `JsonList` as an ordinary list. -/
def JsonList.toList : JsonList → List Json
  | .nil => []
  | .cons x xs => x :: xs.toList

/-- view of a `JsonFields` as an ordinary association list. -/
def JsonFields.toList : JsonFields → List (String × Json)
  | .nil => []
  | .cons n v fs => (n, v) :: fs.toList

mutual
/-- termination measure for the parse recursion: container-node count.
A string is rank 0, so the collapse branch's recursive call on a
synthesised `Json.str` decreases. -/
def Json.rank : Json → Nat
  | .arr xs => 1 + xs.rankList
  | .obj fs => 1 + fs.rankFields
  | _ => 0

def JsonList.rankList : JsonList → Nat
  | .nil => 0
  | .cons x xs => 1 + x.rank + xs.rankList

def JsonFields.rankFields : JsonFields → Nat
  | .nil => 0
  | .cons _ v fs => 1 + v.rank + fs.rankFields
end

/-- Rust `char::is_whitespace`: the Unicode White_Space property. -/
def rust_is_whitespace (c : Char) : Bool :=
  c.toNat = 0x09 || c.toNat = 0x0A || c.toNat = 0x0B || c.toNat = 0x0C || c.toNat = 0x0D ||
  c.toNat = 0x20 || c.toNat = 0x85 || c.toNat = 0xA0 || c.toNat = 0x1680 ||
  (0x2000 ≤ c.toNat && c.toNat ≤ 0x200A) ||
  c.toNat = 0x2028 || c.toNat = 0x2029 || c.toNat = 0x202F || c.toNat = 0x205F || c.toNat = 0x3000

/-- drop leading Unicode whitespace characters. -/
def dropLeadingWs : List Char → List Char
  | [] => []
  | c :: cs => if rust_is_whitespace c then dropLeadingWs cs else c :: cs

/-- Rust `str::trim`: remove leading and trailing Unicode whitespace. -/
def rustTrim (s : String) : String :=
  ⟨(dropLeadingWs (dropLeadingWs s.data).reverse).reverse⟩

/-- Rust `str::replace` with a single-`char` pattern: every occurrence of
`pat` is replaced by `rep`. -/
def replace_char (s : String) (pat : Char) (rep : String) : String :=
  ⟨(s.data.map (fun c => if c = pat then rep.data else [c])).flatten⟩

/-- Rust `str::replace(['\\', '"'], "")`: delete every backslash and
double-quote character. -/
def strip_slash_quote (s : String) : String :=
  ⟨s.data.filter (fun c => !(c = '\\' || c = '"'))⟩

/-- Rust `[String]::join(sep)`: concatenate, interposing `sep`. -/
def join_with (sep : String) : List String → String
  | [] => ""
  | [x] => x
  | x :: xs => x ++ sep ++ join_with sep xs

/-- map a function over the elements of a `JsonList`, producing an ordinary
list (the `array.iter().map(...).collect::<Vec<_>>()` step). -/
def JsonList.mapToList (f : Json → String) : JsonList → List String
  | .nil => []
  | .cons x xs => f x :: xs.mapToList f

/-- lowercase hexadecimal digit, as used by serde_json's escape table. -/
def hex_digit (n : Nat) : Char :=
  if n < 10 then Char.ofNat (48 + n) else Char.ofNat (87 + n)

/-- serde_json's escaping of one character inside a JSON string literal:
`"` and `\` get a backslash, the five short control escapes are used for
backspace, tab, newline, form feed and carriage return, any other control
character below U+0020 becomes `\u00XX`, and everything else is literal. -/
def escape_json_char (c : Char) : String :=
  if c = '"' then "\\\""
  else if c = '\\' then "\\\\"
  else if c.toNat = 0x08 then "\\b"
  else if c.toNat = 0x09 then "\\t"
  else if c.toNat = 0x0A then "\\n"
  else if c.toNat = 0x0C then "\\f"
  else if c.toNat = 0x0D then "\\r"
  else if c.toNat < 0x20 then
    ⟨['\\', 'u', '0', '0', hex_digit (c.toNat / 16), hex_digit (c.toNat % 16)]⟩
  else ⟨[c]⟩

/-- serde_json's rendering of the characters of a JSON string literal. -/
def escape_json_string (s : String) : String :=
  ⟨(s.data.map (fun c => (escape_json_char c).data)).flatten⟩

mutual
/-- serde_json `Value::to_string()`: the compact JSON serialization of a
value (`Display for Value`). For `num` this is the stored decimal text. -/
def Json.to_string : Json → String
  | .null => "null"
  | .bool b => if b then "true" else "false"
  | .num t => t
  | .str s => "\"" ++ escape_json_string s ++ "\""
  | .arr xs => "[" ++ xs.to_string_elems ++ "]"
  | .obj fs => "\x7b" ++ fs.to_string_fields ++ "\x7d"

/-- comma-separated serialization of array elements. -/
def JsonList.to_string_elems : JsonList → String
  | .nil => ""
  | .cons x .nil => x.to_string
  | .cons x xs => x.to_string ++ "," ++ xs.to_string_elems

/-- comma-separated serialization of object fields. -/
def JsonFields.to_string_fields : JsonFields → String
  | .nil => ""
  | .cons n v .nil => "\"" ++ escape_json_string n ++ "\":" ++ v.to_string
  | .cons n v fs =>
      "\"" ++ escape_json_string n ++ "\":" ++ v.to_string ++ "," ++ fs.to_string_fields
end

/-- serde_json `Value::is_object()`. -/
def Json.is_object : Json → Bool
  | .obj _ => true
  | _ => false

/-- serde_json `Value::is_array()`. -/
def Json.is_array : Json → Bool
  | .arr _ => true
  | _ => false

/-- `array.iter().any(|value| value.is_object() || value.is_array())`
(lib.rs, lines 39-41). -/
def JsonList.has_complex : JsonList → Bool
  | .nil => false
  | .cons x xs => (x.is_object || x.is_array) || xs.has_complex

/-- the spec's notion of a scalar: a JSON value that is not an array or an
object (Null, Bool, Number, String). -/
def Json.is_scalar : Json → Bool
  | .null => true
  | .bool _ => true
  | .num _ => true
  | .str _ => true
  | .arr _ => false
  | .obj _ => false

/-- `ParseOptions` (identical in lib.rs and main.rs). -/
structure ParseOptions where
  key_separator : String
  array_separator : String
  enumerate_array : Bool
deriving DecidableEq

/-- `JsonParser::build_key` (identical in lib.rs and main.rs): empty
accumulated key yields the segment verbatim, otherwise
`prefix + separator + segment`. -/
def build_key (pre key separator : String) : String :=
  if pre.isEmpty then key else pre ++ separator ++ key

/-- `EnvVar(String, Value)`: an accumulated key paired with the JSON value
emitted for it. -/
abbrev EnvVar := String × Json

/-- `impl Display for EnvVar` (identical in lib.rs and main.rs):
null/bool/number are rendered bare, a string is wrapped in double quotes
with each inner `"` replaced by `\"`, and any non-scalar renders as the
empty string. -/
def EnvVar.display : EnvVar → String
  | (k, .null) => k ++ "=null"
  | (k, .bool b) => k ++ "=" ++ (if b then "true" else "false")
  | (k, .num t) => k ++ "=" ++ t
  | (k, .str s) => k ++ "=\"" ++ replace_char s '"' "\\\"" ++ "\""
  | (_, .arr _) => ""
  | (_, .obj _) => ""

/-- main.rs, lines 43-47: the formatted lines joined with a newline. -/
def env_output (vars : List EnvVar) : String :=
  join_with "\n" (vars.map EnvVar.display)

mutual
/-- lib.rs `JsonParser::parse_value`. An array is enumerated when
`enumerate_array` is set or some element is an object or array; otherwise
it is collapsed: each element's `to_string()` has backslashes and double
quotes deleted, the results are joined with `array_separator`, and the
function recurses on the resulting `Value::String` with the same key.
An object recurses over its fields in stored order. A scalar emits one
`EnvVar` with the accumulated key trimmed. -/
def parse_value (key : String) (value : Json) (options : ParseOptions) : List EnvVar :=
  match value with
  | .arr array =>
    if options.enumerate_array || array.has_complex then
      parse_array key 0 array options
    else
      let v := join_with options.array_separator
        (array.mapToList (fun value => strip_slash_quote value.to_string))
      parse_value key (.str v) options
  | .obj object => parse_fields key object options
  | _ => [(rustTrim key, value)]
termination_by value.rank
decreasing_by
  all_goals (simp [Json.rank, JsonList.rankList, JsonFields.rankFields]; try omega)

/-- the `for (index, item) in array.iter().enumerate()` loop of
lib.rs `parse_value`, with `index` made explicit. -/
def parse_array (key : String) (index : Nat) (array : JsonList) (options : ParseOptions) :
    List EnvVar :=
  match array with
  | .nil => []
  | .cons item rest =>
    parse_value (build_key key (Nat.repr index) options.key_separator) item options
      ++ parse_array key (index + 1) rest options
termination_by array.rankList
decreasing_by
  all_goals (simp [Json.rank, JsonList.rankList, JsonFields.rankFields]; try omega)

/-- the `for (name, value) in object.iter()` loop of lib.rs `parse_value`. -/
def parse_fields (key : String) (fields : JsonFields) (options : ParseOptions) :
    List EnvVar :=
  match fields with
  | .nil => []
  | .cons name v rest =>
    parse_value (build_key key name options.key_separator) v options
      ++ parse_fields key rest options
termination_by fields.rankFields
decreasing_by
  all_goals (simp [Json.rank, JsonList.rankList, JsonFields.rankFields]; try omega)
end

/-- lib.rs `JsonParser`: holds only the options (no other state). -/
structure JsonParser where
  options : ParseOptions

/-- lib.rs `JsonParser::parse`: delegates to `parse_value` with an empty
root key; it reads `self.options` and mutates nothing. -/
def JsonParser.parse (p : JsonParser) (json : Json) : List EnvVar :=
  parse_value "" json p.options

mutual
/-- main.rs `JsonParser::parse_keys`: the binary's flattener. It appends
to the accumulator `lines`. An array is enumerated only when
`enumerate_array` is set; otherwise it is collapsed by joining the
elements' `to_string()` forms (no character stripping) with
`array_separator` and recursing on the resulting `Value::String`. -/
def parse_keys (lines : List EnvVar) (key : String) (value : Json) (options : ParseOptions) :
    List EnvVar :=
  match value with
  | .arr array =>
    if options.enumerate_array then
      parse_keys_array lines key 0 array options
    else
      let v := join_with options.array_separator (array.mapToList Json.to_string)
      parse_keys lines key (.str v) options
  | .obj object => parse_keys_fields lines key object options
  | _ => lines ++ [(rustTrim key, value)]
termination_by value.rank
decreasing_by
  all_goals (simp [Json.rank, JsonList.rankList, JsonFields.rankFields]; try omega)

/-- the `for (index, item) in array.iter().enumerate()` loop of
main.rs `parse_keys`. -/
def parse_keys_array (lines : List EnvVar) (key : String) (index : Nat) (array : JsonList)
    (options : ParseOptions) : List EnvVar :=
  match array with
  | .nil => lines
  | .cons item rest =>
    parse_keys_array
      (parse_keys lines (build_key key (Nat.repr index) options.key_separator) item options)
      key (index + 1) rest options
termination_by array.rankList
decreasing_by
  all_goals (simp [Json.rank, JsonList.rankList, JsonFields.rankFields]; try omega)

/-- the `for (name, value) in object` loop of main.rs `parse_keys`. -/
def parse_keys_fields (lines : List EnvVar) (key : String) (fields : JsonFields)
    (options : ParseOptions) : List EnvVar :=
  match fields with
  | .nil => lines
  | .cons name v rest =>
    parse_keys_fields
      (parse_keys lines (build_key key name options.key_separator) v options)
      key rest options
termination_by fields.rankFields
decreasing_by
  all_goals (simp [Json.rank, JsonList.rankList, JsonFields.rankFields]; try omega)
end

/-- main.rs `JsonParser`: holds the options and the accumulated `vars`. -/
structure MainParser where
  options : ParseOptions
  vars : List EnvVar

/-- main.rs `JsonParser::new`: empty accumulator. -/
def MainParser.new (options : ParseOptions) : MainParser :=
  { options := options, vars := [] }

/-- main.rs `JsonParser::parse`: runs `parse_keys` over `self.vars`
(without clearing it) and returns the updated vector together with the
updated parser. -/
def MainParser.parse (p : MainParser) (json : Json) : List EnvVar × MainParser :=
  let vars := parse_keys p.vars "" json p.options
  (vars, { options := p.options, vars := vars })

/-- the spec's words for rendering one array element before stripping
(section 4.1): numbers as decimal, booleans as true/false, strings as
their raw characters, null as the literal text null. Used only to compare
the specified collapse rule with the implemented one. -/
def spec_default_textual_form : Json → String
  | .null => "null"
  | .bool b => if b then "true" else "false"
  | .num t => t
  | .str s => s
  | .arr _ => ""
  | .obj _ => ""

/-! ## Helper lemmas -/

theorem rustTrim_empty : rustTrim "" = "" := rfl

/-- scalar emission: on any non-array non-object value, `parse_value`
emits exactly one entry, with the accumulated key trimmed. -/
theorem parse_value_scalar (key : String) (v : Json) (options : ParseOptions)
    (h : v.is_scalar = true) :
    parse_value key v options = [(rustTrim key, v)] := by
  cases v
  case arr xs => simp [Json.is_scalar] at h
  case obj fs => simp [Json.is_scalar] at h
  all_goals simp [parse_value]

/-- the object loop concatenates the children's entries in field order. -/
theorem parse_fields_eq (key : String) (options : ParseOptions) :
    ∀ fields : JsonFields,
    parse_fields key fields options
      = fields.toList.flatMap
          (fun p => parse_value (build_key key p.1 options.key_separator) p.2 options)
  | .nil => by simp [parse_fields, JsonFields.toList]
  | .cons n v fs => by
      simp [parse_fields, JsonFields.toList, parse_fields_eq key options fs]

/-- the array loop concatenates the children's entries in index order,
keyed by the decimal rendering of the index. -/
theorem parse_array_eq (key : String) (options : ParseOptions) :
    ∀ (array : JsonList) (i : Nat),
    parse_array key i array options
      = (List.enumFrom i array.toList).flatMap
          (fun p => parse_value (build_key key (Nat.repr p.1) options.key_separator) p.2 options)
  | .nil, i => by simp [parse_array, JsonList.toList]
  | .cons x xs, i => by
      simp [parse_array, JsonList.toList, List.enumFrom, parse_array_eq key options xs (i + 1)]

theorem string_append_assoc (a b c : String) : a ++ b ++ c = a ++ (b ++ c) := by
  cases a with
  | mk la =>
    cases b with
    | mk lb =>
      cases c with
      | mk lc => exact congrArg String.mk (List.append_assoc la lb lc)

theorem replace_char_of_not_mem (s : String) (pat : Char) (rep : String)
    (h : pat ∉ s.data) : replace_char s pat rep = s := by
  have key : ∀ l : List Char, pat ∉ l →
      (l.map (fun c => if c = pat then rep.data else [c])).flatten = l := by
    intro l hl
    induction l with
    | nil => simp
    | cons c cs ih =>
        simp only [List.mem_cons, not_or] at hl
        have hne : ¬(c = pat) := fun hc => hl.1 hc.symm
        simp only [List.map_cons, List.flatten_cons, if_neg hne]
        rw [ih hl.2]
        rfl
  cases s with
  | mk l => exact congrArg String.mk (key l h)

/-! ## Claims -/

/-- Claim C6: the formatter renders an entry by scalar kind: Null as
KEY=null, Bool as KEY=true or KEY=false, Number as KEY= followed by the
number's decimal text without quotes, and String as KEY="value" with every
double quote escaped as backslash-quote and no other character escaped;
key k with value `he said "hi"` formats to `k="he said \"hi\""`, and a
backslash and a newline pass through unescaped. -/
theorem C6_formatter_by_scalar_kind :
    (∀ k : String, EnvVar.display (k, Json.null) = k ++ "=null")
  ∧ (∀ k : String, EnvVar.display (k, Json.bool true) = k ++ "=true")
  ∧ (∀ k : String, EnvVar.display (k, Json.bool false) = k ++ "=false")
  ∧ (∀ k t : String, EnvVar.display (k, Json.num t) = k ++ "=" ++ t)
  ∧ (∀ k s : String,
      EnvVar.display (k, Json.str s) = k ++ "=\"" ++ replace_char s '"' "\\\"" ++ "\"")
  ∧ (∀ k s : String, '"' ∉ s.data →
      EnvVar.display (k, Json.str s) = k ++ "=\"" ++ s ++ "\"")
  ∧ EnvVar.display ("k", Json.str "he said \"hi\"") = "k=\"he said \\\"hi\\\"\""
  ∧ EnvVar.display ("k", Json.str "a\\b\nc") = "k=\"a\\b\nc\"" := by
  refine ⟨fun k => rfl, fun k => ?_, fun k => ?_, fun k t => rfl, fun k s => rfl,
    fun k s h => ?_, by decide, by decide⟩
  · show k ++ "=" ++ "true" = k ++ "=true"
    rw [string_append_assoc]; rfl
  · show k ++ "=" ++ "false" = k ++ "=false"
    rw [string_append_assoc]; rfl
  · show k ++ "=\"" ++ replace_char s '"' "\\\"" ++ "\"" = _
    rw [replace_char_of_not_mem s '"' "\\\"" h]

/-- Claim C6 witness: the quote-free clause at a concrete input. -/
theorem C6_formatter_by_scalar_kind_witness :
    EnvVar.display ("k", Json.str "hello") = "k=\"hello\"" := by
  have h := C6_formatter_by_scalar_kind.2.2.2.2.2.1 "k" "hello" (by decide)
  simpa using h

/-- Claim C7: flattening a scalar root value under any configuration
yields exactly one entry whose key is the empty string and whose value is
the scalar itself. -/
theorem C7_scalar_root (v : Json) (options : ParseOptions) (h : v.is_scalar = true) :
    parse_value "" v options = [("", v)] := by
  rw [parse_value_scalar "" v options h, rustTrim_empty]

/-- Claim C7 witness: the scalar root rule at a concrete input. -/
theorem C7_scalar_root_witness :
    parse_value "" (Json.bool true) ⟨"__", ",", false⟩ = [("", Json.bool true)] :=
  C7_scalar_root (Json.bool true) ⟨"__", ",", false⟩ (by decide)

/-- Claim C1: an array containing at least one object or array element is
enumerated regardless of the `enumerate_array` flag: the flattener recurses
on each (index, element) with the index rendered as a decimal string; and
flattening the object with field "array" holding the array [1, obj(x=2)]
under enumerate_array=false yields exactly array__0=1 and array__1__x=2. -/
theorem C1_complex_array_forces_enumeration :
    (∀ (options : ParseOptions) (key : String) (array : JsonList),
      array.has_complex = true →
      parse_value key (Json.arr array) options
        = (List.enumFrom 0 array.toList).flatMap
            (fun p => parse_value (build_key key (Nat.repr p.1) options.key_separator) p.2 options))
  ∧ parse_value ""
      (Json.obj (.cons "array"
        (Json.arr (.cons (Json.num "1") (.cons (Json.obj (.cons "x" (Json.num "2") .nil)) .nil)))
        .nil))
      ⟨"__", ",", false⟩
      = [("array__0", Json.num "1"), ("array__1__x", Json.num "2")] := by
  constructor
  · intro options key array h
    rw [show parse_value key (Json.arr array) options
          = if options.enumerate_array || array.has_complex then
              parse_array key 0 array options
            else
              parse_value key
                (.str (join_with options.array_separator
                  (array.mapToList (fun value => strip_slash_quote value.to_string)))) options
        from by simp [parse_value]]
    rw [if_pos (by simp [h])]
    exact parse_array_eq key options array 0
  · simp [parse_value, parse_fields, parse_array, JsonList.has_complex, Json.is_object,
      Json.is_array, build_key, rustTrim, dropLeadingWs, rust_is_whitespace, Nat.repr]
    decide

/-- Claim C1 witness: the forced-enumeration clause applied to a concrete
array with a complex element. -/
theorem C1_complex_array_forces_enumeration_witness :
    JsonList.has_complex (.cons (Json.obj JsonFields.nil) JsonList.nil) = true
    ∧ parse_value "" (Json.arr (.cons (Json.obj JsonFields.nil) JsonList.nil)) ⟨"__", ",", false⟩
      = (List.enumFrom 0 (JsonList.cons (Json.obj JsonFields.nil) JsonList.nil).toList).flatMap
          (fun p => parse_value (build_key "" (Nat.repr p.1) "__") p.2 ⟨"__", ",", false⟩) :=
  ⟨by decide,
   C1_complex_array_forces_enumeration.1 ⟨"__", ",", false⟩ ""
     (.cons (Json.obj JsonFields.nil) JsonList.nil) (by decide)⟩

/-- Claim C8: entries appear in a deterministic depth-first pre-order: an
object's children in stored field order, an array's children (when the
array is enumerated) in index order, and flattening the object with fields
a=1, b=2 yields the entries in order (a,1), (b,2). -/
theorem C8_deterministic_preorder :
    (∀ (options : ParseOptions) (key : String) (fields : JsonFields),
      parse_value key (Json.obj fields) options
        = fields.toList.flatMap
            (fun p => parse_value (build_key key p.1 options.key_separator) p.2 options))
  ∧ (∀ (options : ParseOptions) (key : String) (array : JsonList),
      (options.enumerate_array || array.has_complex) = true →
      parse_value key (Json.arr array) options
        = (List.enumFrom 0 array.toList).flatMap
            (fun p => parse_value (build_key key (Nat.repr p.1) options.key_separator) p.2 options))
  ∧ parse_value ""
      (Json.obj (.cons "a" (Json.num "1") (.cons "b" (Json.num "2") JsonFields.nil)))
      ⟨"__", ",", false⟩
      = [("a", Json.num "1"), ("b", Json.num "2")] := by
  refine ⟨?_, ?_, ?_⟩
  · intro options key fields
    rw [show parse_value key (Json.obj fields) options = parse_fields key fields options
        from by simp [parse_value]]
    exact parse_fields_eq key options fields
  · intro options key array h
    rw [show parse_value key (Json.arr array) options
          = if options.enumerate_array || array.has_complex then
              parse_array key 0 array options
            else
              parse_value key
                (.str (join_with options.array_separator
                  (array.mapToList (fun value => strip_slash_quote value.to_string)))) options
        from by simp [parse_value]]
    rw [if_pos h]
    exact parse_array_eq key options array 0
  · simp [parse_value, parse_fields, build_key, rustTrim, dropLeadingWs, rust_is_whitespace]

/-- Claim C8 witness: the enumerated-array clause applied concretely. -/
theorem C8_deterministic_preorder_witness :
    ((⟨"__", ",", true⟩ : ParseOptions).enumerate_array
        || JsonList.has_complex (.cons (Json.num "1") JsonList.nil)) = true
    ∧ parse_value "" (Json.arr (.cons (Json.num "1") JsonList.nil)) ⟨"__", ",", true⟩
      = (List.enumFrom 0 (JsonList.cons (Json.num "1") JsonList.nil).toList).flatMap
          (fun p => parse_value (build_key "" (Nat.repr p.1) "__") p.2 ⟨"__", ",", true⟩) :=
  ⟨by decide,
   C8_deterministic_preorder.2.1 ⟨"__", ",", true⟩ ""
     (.cons (Json.num "1") JsonList.nil) (by decide)⟩

/-- Claim C4 counterexample: an empty array under enumerate_array=false
does NOT contribute zero entries: it collapses to one entry whose value is
the empty string. -/
theorem C4_counterexample :
    parse_value "" (Json.arr JsonList.nil) ⟨"__", ",", false⟩ = [("", Json.str "")]
    ∧ ([("", Json.str "")] : List EnvVar) ≠ [] := by
  constructor
  · simp [parse_value, JsonList.has_complex, JsonList.mapToList, join_with, rustTrim,
      dropLeadingWs]
  · decide

/-- Claim C4 as amended: an empty object contributes zero entries under
every configuration; an empty array contributes zero entries when
enumerate_array is true, and exactly one entry (trimmed key, empty string)
when enumerate_array is false. -/
theorem C4_amended_empty_containers (options : ParseOptions) (key : String) :
    parse_value key (Json.obj JsonFields.nil) options = []
    ∧ parse_value key (Json.arr JsonList.nil) options
        = (if options.enumerate_array then [] else [(rustTrim key, Json.str "")]) := by
  constructor
  · simp [parse_value, parse_fields]
  · by_cases h : options.enumerate_array
    · simp [parse_value, parse_array, h]
    · rw [if_neg h]
      rw [show parse_value key (Json.arr JsonList.nil) options
            = parse_value key (.str (join_with options.array_separator
                (JsonList.nil.mapToList (fun value => strip_slash_quote value.to_string)))) options
          from by simp [parse_value, JsonList.has_complex, h]]
      exact parse_value_scalar key (Json.str "") options rfl

/-- Claim C5 counterexample: a field name with leading whitespace does NOT
keep that whitespace in the emitted key when the field is the first
segment of the accumulated key: the emission-time trim removes it. -/
theorem C5_counterexample :
    parse_value "" (Json.obj (.cons " a" (Json.num "1") JsonFields.nil)) ⟨"__", ",", false⟩
      = [("a", Json.num "1")]
    ∧ ("a" : String) ≠ " a" := by
  constructor
  · simp [parse_value, parse_fields, build_key, rustTrim, dropLeadingWs, rust_is_whitespace]
  · decide

/-- Claim C5 as amended: at scalar emission the whole accumulated key is
trimmed, so whitespace at the very start or very end of the accumulated
key (including whitespace carried by the first or last field name) is
removed; field-name whitespace interior to the key is preserved, as in
the object a-space holding an object b, which emits the key "a __b". -/
theorem C5_amended_trim_accumulated_key (options : ParseOptions) (key : String) (v : Json)
    (h : v.is_scalar = true) :
    parse_value key v options = [(rustTrim key, v)]
    ∧ parse_value "" (Json.obj (.cons "a "
        (Json.obj (.cons "b" (Json.num "1") JsonFields.nil)) JsonFields.nil)) ⟨"__", ",", false⟩
      = [("a __b", Json.num "1")] := by
  constructor
  · exact parse_value_scalar key v options h
  · simp [parse_value, parse_fields, build_key, rustTrim, dropLeadingWs, rust_is_whitespace]

/-- Claim C5 witness: the amended trim rule at a concrete input. -/
theorem C5_amended_trim_accumulated_key_witness :
    parse_value " x" Json.null ⟨"__", ",", false⟩ = [("x", Json.null)] := by
  have h := (C5_amended_trim_accumulated_key ⟨"__", ",", false⟩ " x" Json.null (by decide)).1
  rw [h]
  decide

/-- on a character that is neither a control character, a double quote nor
a backslash, serde's escaping is the character itself; stripping
backslashes and quotes therefore erases exactly the same characters from
the escaped text as from the raw text. -/
theorem filter_escape_eq (c : Char) (hc : 0x20 ≤ c.toNat) :
    (escape_json_char c).data.filter (fun c => !(c = '\\' || c = '"'))
      = [c].filter (fun c => !(c = '\\' || c = '"')) := by
  by_cases hq : c = '"'
  · subst hq; decide
  · by_cases hb : c = '\\'
    · subst hb; decide
    · rw [show escape_json_char c = ⟨[c]⟩ from by
        simp only [escape_json_char, if_neg hq, if_neg hb, if_neg (by omega : ¬c.toNat = 0x08),
          if_neg (by omega : ¬c.toNat = 0x09), if_neg (by omega : ¬c.toNat = 0x0A),
          if_neg (by omega : ¬c.toNat = 0x0C), if_neg (by omega : ¬c.toNat = 0x0D),
          if_neg (by omega : ¬c.toNat < 0x20)]]

/-- stripping backslashes and double quotes from the escaped character
list equals stripping them from the raw character list, for strings with
no control characters. -/
theorem filter_flatten_escape (l : List Char) (h : forall c, c ∈ l → 0x20 ≤ c.toNat) :
    ((l.map (fun c => (escape_json_char c).data)).flatten).filter (fun c => !(c = '\\' || c = '"'))
      = l.filter (fun c => !(c = '\\' || c = '"')) := by
  induction l with
  | nil => rfl
  | cons c cs ih =>
      simp only [List.map_cons, List.flatten_cons, List.filter_append]
      rw [filter_escape_eq c (h c (by simp))]
      rw [ih (fun d hd => h d (by simp [hd]))]
      rcases Decidable.em (c = '\\') with hb | hb
      · simp [List.filter_cons, hb]
      · rcases Decidable.em (c = '"') with hq | hq
        · simp [List.filter_cons, hb, hq]
        · simp [List.filter_cons, hb, hq]

/-- for a string with no control characters, stripping backslashes and
double quotes from its serde serialization gives the same result as
stripping them from its raw characters (the spec's reading). -/
theorem strip_to_string_eq_strip_raw (s : String) (h : ∀ c ∈ s.data, 0x20 ≤ c.toNat) :
    strip_slash_quote (Json.to_string (Json.str s)) = strip_slash_quote s := by
  cases s with
  | mk l =>
    apply congrArg String.mk
    show ('"' :: ((l.map (fun c => (escape_json_char c).data)).flatten ++ ['"'])).filter
          (fun c => !(c = '\\' || c = '"'))
        = l.filter (fun c => !(c = '\\' || c = '"'))
    rw [List.filter_cons_of_neg (by decide), List.filter_append,
      show (['"'].filter (fun c => !(c = '\\' || c = '"'))) = [] from by decide,
      List.append_nil]
    exact filter_flatten_escape l h

/-- Claim C3 counterexample: for the scalar-only array holding the single
string consisting of one newline character, under enumerate_array=false
the code emits the value "n" (serde escapes the newline as backslash-n
and the collapse then strips the backslash), while the claim's rendering
rule (raw characters, then strip backslashes and quotes) prescribes the
newline itself. -/
theorem C3_counterexample :
    parse_value "" (Json.arr (.cons (Json.str "\n") JsonList.nil)) ⟨"__", ",", false⟩
      = [("", Json.str "n")]
    ∧ join_with ","
        [strip_slash_quote (spec_default_textual_form (Json.str "\n"))] = "\n"
    ∧ ("n" : String) ≠ "\n" := by
  refine ⟨?_, by decide, by decide⟩
  simp [parse_value, JsonList.has_complex, Json.is_object, Json.is_array, JsonList.mapToList,
    join_with, strip_slash_quote, Json.to_string, escape_json_string, escape_json_char,
    rustTrim, dropLeadingWs, rust_is_whitespace]

/-- Claim C3 as amended: when enumerate_array is false and every element
of the array is a scalar, the array collapses to a single entry with the
same (trimmed) key whose value is the string obtained by rendering each
element via its JSON serialization (`Value::to_string`), deleting every
backslash and double-quote character, and joining with array_separator.
For string elements without control characters this coincides with the
spec's raw-characters rendering, and the object with field "array"
holding [1,2,3] flattens to the single entry array="1,2,3". -/
theorem C3_amended_scalar_array_collapse :
    (∀ (options : ParseOptions) (key : String) (array : JsonList),
      options.enumerate_array = false → array.has_complex = false →
      parse_value key (Json.arr array) options
        = [(rustTrim key,
            Json.str (join_with options.array_separator
              (array.mapToList (fun v => strip_slash_quote v.to_string))))])
  ∧ (∀ s : String, (∀ c ∈ s.data, 0x20 ≤ c.toNat) →
      strip_slash_quote (Json.to_string (Json.str s))
        = strip_slash_quote (spec_default_textual_form (Json.str s)))
  ∧ parse_value ""
      (Json.obj (.cons "array"
        (Json.arr (.cons (Json.num "1") (.cons (Json.num "2") (.cons (Json.num "3") JsonList.nil))))
        JsonFields.nil))
      ⟨"__", ",", false⟩
      = [("array", Json.str "1,2,3")] := by
  refine ⟨?_, ?_, ?_⟩
  · intro options key array h1 h2
    rw [show parse_value key (Json.arr array) options
          = if options.enumerate_array || array.has_complex then
              parse_array key 0 array options
            else
              parse_value key
                (.str (join_with options.array_separator
                  (array.mapToList (fun value => strip_slash_quote value.to_string)))) options
        from by simp [parse_value]]
    rw [if_neg (by simp [h1, h2])]
    exact parse_value_scalar key _ options rfl
  · intro s h
    exact strip_to_string_eq_strip_raw s h
  · simp [parse_value, parse_fields, parse_array, JsonList.has_complex, Json.is_object,
      Json.is_array, JsonList.mapToList, join_with, strip_slash_quote, Json.to_string,
      escape_json_string, escape_json_char, build_key, rustTrim, dropLeadingWs,
      rust_is_whitespace]

/-- Claim C3 witness: the amended collapse rule applied to a concrete
scalar-only array. -/
theorem C3_amended_scalar_array_collapse_witness :
    parse_value "k" (Json.arr (.cons (Json.str "a") (.cons (Json.bool true) JsonList.nil)))
      ⟨"__", ",", false⟩
      = [("k", Json.str "a,true")] := by
  have h := C3_amended_scalar_array_collapse.1 ⟨"__", ",", false⟩ "k"
    (.cons (Json.str "a") (.cons (Json.bool true) JsonList.nil)) rfl (by decide)
  rw [h]
  decide

/-! ## Unfolding equations for the two flatteners -/

theorem parse_value_arr_eq (key : String) (xs : JsonList) (options : ParseOptions) :
    parse_value key (Json.arr xs) options
      = if options.enumerate_array || xs.has_complex then
          parse_array key 0 xs options
        else
          parse_value key
            (.str (join_with options.array_separator
              (xs.mapToList (fun value => strip_slash_quote value.to_string)))) options := by
  simp [parse_value]

theorem parse_value_obj_eq (key : String) (fs : JsonFields) (options : ParseOptions) :
    parse_value key (Json.obj fs) options = parse_fields key fs options := by
  simp [parse_value]

theorem parse_fields_cons_eq (key n : String) (v : Json) (fs : JsonFields)
    (options : ParseOptions) :
    parse_fields key (.cons n v fs) options
      = parse_value (build_key key n options.key_separator) v options
          ++ parse_fields key fs options := by
  simp [parse_fields]

theorem parse_array_cons_eq (key : String) (i : Nat) (x : Json) (xs : JsonList)
    (options : ParseOptions) :
    parse_array key i (.cons x xs) options
      = parse_value (build_key key (Nat.repr i) options.key_separator) x options
          ++ parse_array key (i + 1) xs options := by
  simp [parse_array]

theorem parse_keys_arr_eq (lines : List EnvVar) (key : String) (xs : JsonList)
    (options : ParseOptions) :
    parse_keys lines key (Json.arr xs) options
      = if options.enumerate_array then
          parse_keys_array lines key 0 xs options
        else
          parse_keys lines key
            (.str (join_with options.array_separator (xs.mapToList Json.to_string))) options := by
  simp [parse_keys]

theorem parse_keys_obj_eq (lines : List EnvVar) (key : String) (fs : JsonFields)
    (options : ParseOptions) :
    parse_keys lines key (Json.obj fs) options = parse_keys_fields lines key fs options := by
  simp [parse_keys]

theorem parse_keys_scalar (lines : List EnvVar) (key : String) (v : Json)
    (options : ParseOptions) (h : v.is_scalar = true) :
    parse_keys lines key v options = lines ++ [(rustTrim key, v)] := by
  cases v
  case arr xs => simp [Json.is_scalar] at h
  case obj fs => simp [Json.is_scalar] at h
  all_goals simp [parse_keys]

theorem parse_keys_fields_cons_eq (lines : List EnvVar) (key n : String) (v : Json)
    (fs : JsonFields) (options : ParseOptions) :
    parse_keys_fields lines key (.cons n v fs) options
      = parse_keys_fields
          (parse_keys lines (build_key key n options.key_separator) v options)
          key fs options := by
  simp [parse_keys_fields]

theorem parse_keys_array_cons_eq (lines : List EnvVar) (key : String) (i : Nat) (x : Json)
    (xs : JsonList) (options : ParseOptions) :
    parse_keys_array lines key i (.cons x xs) options
      = parse_keys_array
          (parse_keys lines (build_key key (Nat.repr i) options.key_separator) x options)
          key (i + 1) xs options := by
  simp [parse_keys_array]

/-- the binary's `parse_keys` only ever appends: running it on an
accumulator equals the accumulator followed by a fresh run. -/
theorem parse_keys_acc (lines : List EnvVar) (key : String) (value : Json)
    (options : ParseOptions) :
    parse_keys lines key value options = lines ++ parse_keys [] key value options := by
  refine (parse_keys.induct
    (fun _ key value options => ∀ L,
      parse_keys L key value options = L ++ parse_keys [] key value options)
    (fun _ key fields options => ∀ L,
      parse_keys_fields L key fields options = L ++ parse_keys_fields [] key fields options)
    (fun _ key index array options => ∀ L,
      parse_keys_array L key index array options = L ++ parse_keys_array [] key index array options)
    ?_ ?_ ?_ ?_ ?_ ?_ ?_ ?_ [] key value options) lines
  · intro _ key options xs h ih L
    rw [parse_keys_arr_eq, parse_keys_arr_eq, if_pos h, if_pos h, ih L]
  · intro _ key options xs h v ih L
    rw [parse_keys_arr_eq, parse_keys_arr_eq, if_neg h, if_neg h]
    exact ih L
  · intro _ key options fs ih L
    rw [parse_keys_obj_eq, parse_keys_obj_eq, ih L]
  · intro _ key value options harr hobj L
    cases value
    case arr xs => exact absurd rfl (harr xs)
    case obj fs => exact absurd rfl (hobj fs)
    all_goals simp [parse_keys]
  · intro _ key options L
    simp [parse_keys_fields]
  · intro _ key options n v fs ih1 ih2 L
    rw [parse_keys_fields_cons_eq, parse_keys_fields_cons_eq, ih2, ih1 L,
      ih2 (parse_keys [] (build_key key n options.key_separator) v options)]
    simp
  · intro _ key index options L
    simp [parse_keys_array]
  · intro _ key index options x xs ih1 ih2 L
    rw [parse_keys_array_cons_eq, parse_keys_array_cons_eq, ih2, ih1 L,
      ih2 (parse_keys [] (build_key key (Nat.repr index) options.key_separator) x options)]
    simp

/-- every entry the library flattener emits carries a scalar value. -/
theorem parse_value_scalar_only (key : String) (value : Json) (options : ParseOptions) :
    ∀ e ∈ parse_value key value options, e.2.is_scalar = true := by
  refine parse_value.induct
    (fun key value options => ∀ e ∈ parse_value key value options, e.2.is_scalar = true)
    (fun key fields options => ∀ e ∈ parse_fields key fields options, e.2.is_scalar = true)
    (fun key index array options => ∀ e ∈ parse_array key index array options, e.2.is_scalar = true)
    ?_ ?_ ?_ ?_ ?_ ?_ ?_ ?_ key value options
  · intro key options xs hcond ih e he
    rw [parse_value_arr_eq, if_pos hcond] at he
    exact ih e he
  · intro key options xs hcond v ih e he
    rw [parse_value_arr_eq, if_neg hcond] at he
    exact ih e he
  · intro key options fs ih e he
    rw [parse_value_obj_eq] at he
    exact ih e he
  · intro key value options harr hobj e he
    cases value
    case arr xs => exact absurd rfl (harr xs)
    case obj fs => exact absurd rfl (hobj fs)
    all_goals simp [parse_value] at he
    all_goals rw [show e = _ from Prod.ext (congrArg Prod.fst he) (congrArg Prod.snd he)]
    all_goals rfl
  · intro key options e he
    simp [parse_fields] at he
  · intro key options n v fs ih1 ih2 e he
    rw [parse_fields_cons_eq] at he
    rcases List.mem_append.mp he with h | h
    · exact ih1 e h
    · exact ih2 e h
  · intro key index options e he
    simp [parse_array] at he
  · intro key index options x xs ih1 ih2 e he
    rw [parse_array_cons_eq] at he
    rcases List.mem_append.mp he with h | h
    · exact ih1 e h
    · exact ih2 e h

/-- Claim C9: every entry produced by the flattener carries a scalar value
(Null, Bool, Number or String); in particular no entry's value is an array
or an object, so the formatter's defensive non-scalar branch is
unreachable on entries the flattener produces. -/
theorem C9_entries_are_scalars (key : String) (value : Json) (options : ParseOptions)
    (e : EnvVar) (he : e ∈ parse_value key value options) :
    e.2.is_scalar = true
    ∧ (∀ xs : JsonList, e.2 ≠ Json.arr xs)
    ∧ (∀ fs : JsonFields, e.2 ≠ Json.obj fs) := by
  have h := parse_value_scalar_only key value options e he
  refine ⟨h, fun xs hx => ?_, fun fs hf => ?_⟩
  · rw [hx] at h; simp [Json.is_scalar] at h
  · rw [hf] at h; simp [Json.is_scalar] at h

/-- Claim C9 witness: the scalar-value property at a concrete entry. -/
theorem C9_entries_are_scalars_witness :
    (("a", Json.num "1") : EnvVar)
        ∈ parse_value "" (Json.obj (.cons "a" (Json.num "1") JsonFields.nil)) ⟨"__", ",", false⟩
    ∧ (Json.num "1").is_scalar = true :=
  ⟨by simp [parse_value, parse_fields, build_key, rustTrim, dropLeadingWs, rust_is_whitespace],
   (C9_entries_are_scalars "" (Json.obj (.cons "a" (Json.num "1") JsonFields.nil))
      ⟨"__", ",", false⟩ ("a", Json.num "1")
      (by simp [parse_value, parse_fields, build_key, rustTrim, dropLeadingWs,
        rust_is_whitespace])).1⟩

/-- Claim C2 counterexample: the binary's parser keeps its accumulated
`vars` across `parse` calls, so a second call on the same parser with the
same input returns (and renders) the entries twice. -/
theorem C2_counterexample :
    ((MainParser.new ⟨"__", ",", false⟩).parse Json.null).1 = [("", Json.null)]
    ∧ (((MainParser.new ⟨"__", ",", false⟩).parse Json.null).2.parse Json.null).1
        = [("", Json.null), ("", Json.null)]
    ∧ env_output [("", Json.null)] = "=null"
    ∧ env_output [("", Json.null), ("", Json.null)] = "=null\n=null"
    ∧ ("=null" : String) ≠ "=null\n=null" := by
  refine ⟨?_, ?_, by decide, by decide, by decide⟩
  · simp [MainParser.new, MainParser.parse, parse_keys, rustTrim, dropLeadingWs]
  · simp [MainParser.new, MainParser.parse, parse_keys, rustTrim, dropLeadingWs]

/-- Claim C2 as amended: a single `parse` call on a fresh binary parser is
the pure function `parse_keys [] "" json options` (so re-running on a
fresh parser is deterministic), but a second call on the SAME parser does
not reproduce the first output: it returns the first output followed by a
fresh copy of itself, because `parse` appends into `self.vars`. The
library parser carries no accumulator, so its `parse` is a pure function
of its options and input. -/
theorem C2_amended_second_run_appends (options : ParseOptions) (json : Json) :
    ((MainParser.new options).parse json).1 = parse_keys [] "" json options
    ∧ (((MainParser.new options).parse json).2.parse json).1
        = parse_keys [] "" json options ++ parse_keys [] "" json options
    ∧ JsonParser.parse ⟨options⟩ json = parse_value "" json options := by
  refine ⟨rfl, ?_, rfl⟩
  show parse_keys (parse_keys [] "" json options) "" json options = _
  exact parse_keys_acc (parse_keys [] "" json options) "" json options

/-- the binary's flattener agrees with the library's whenever
`enumerate_array` is set: with the flag on, both enumerate every array. -/
theorem parse_keys_eq_parse_value_of_enum (key : String) (value : Json)
    (options : ParseOptions) (h : options.enumerate_array = true) (L : List EnvVar) :
    parse_keys L key value options = L ++ parse_value key value options := by
  refine parse_value.induct
    (fun key value options => options.enumerate_array = true → ∀ L,
      parse_keys L key value options = L ++ parse_value key value options)
    (fun key fields options => options.enumerate_array = true → ∀ L,
      parse_keys_fields L key fields options = L ++ parse_fields key fields options)
    (fun key index array options => options.enumerate_array = true → ∀ L,
      parse_keys_array L key index array options = L ++ parse_array key index array options)
    ?_ ?_ ?_ ?_ ?_ ?_ ?_ ?_ key value options h L
  · intro key options xs hcond ih h L
    rw [parse_keys_arr_eq, if_pos h, parse_value_arr_eq, if_pos hcond]
    exact ih h L
  · intro key options xs hcond v ih h L
    exact absurd (by simp [h]) hcond
  · intro key options fs ih h L
    rw [parse_keys_obj_eq, parse_value_obj_eq]
    exact ih h L
  · intro key value options harr hobj h L
    cases value
    case arr xs => exact absurd rfl (harr xs)
    case obj fs => exact absurd rfl (hobj fs)
    all_goals simp [parse_keys, parse_value]
  · intro key options h L
    simp [parse_keys_fields, parse_fields]
  · intro key options n v fs ih1 ih2 h L
    rw [parse_keys_fields_cons_eq, parse_fields_cons_eq, ih2 h, ih1 h L]
    simp
  · intro key index options h L
    simp [parse_keys_array, parse_array]
  · intro key index options x xs ih1 ih2 h L
    rw [parse_keys_array_cons_eq, parse_array_cons_eq, ih2 h, ih1 h L]
    simp

/-- Claim C10 counterexample: on the array holding the single string "a",
with enumerate_array=false, the library flattener collapses with
backslash/quote stripping and yields the value a, while the binary's
flattener joins the serde serializations unstripped and yields the value
"a" with literal quotes; the two outputs differ. -/
theorem C10_counterexample :
    parse_value "" (Json.arr (.cons (Json.str "a") JsonList.nil)) ⟨"__", ",", false⟩
      = [("", Json.str "a")]
    ∧ parse_keys [] "" (Json.arr (.cons (Json.str "a") JsonList.nil)) ⟨"__", ",", false⟩
      = [("", Json.str "\"a\"")]
    ∧ ("a" : String) ≠ "\"a\"" := by
  refine ⟨?_, ?_, by decide⟩
  · simp [parse_value, JsonList.has_complex, Json.is_object, Json.is_array, JsonList.mapToList,
      join_with, strip_slash_quote, Json.to_string, escape_json_string, escape_json_char,
      rustTrim, dropLeadingWs, rust_is_whitespace]
  · simp [parse_keys, JsonList.mapToList, join_with, Json.to_string, escape_json_string,
      escape_json_char, rustTrim, dropLeadingWs, rust_is_whitespace]

/-- Claim C10 as amended: the two flatteners agree on every JSON value and
configuration with enumerate_array=true (both then enumerate every array);
with enumerate_array=false they can differ on arrays, because the binary
neither forces enumeration for complex elements nor strips backslashes and
quotes when collapsing. -/
theorem C10_amended_agree_when_enumerating (options : ParseOptions) (json : Json)
    (h : options.enumerate_array = true) :
    ((MainParser.new options).parse json).1 = JsonParser.parse ⟨options⟩ json := by
  show parse_keys [] "" json options = _
  rw [parse_keys_eq_parse_value_of_enum "" json options h []]
  rfl

/-- Claim C10 witness: the agreement under enumerate_array=true at a
concrete input. -/
theorem C10_amended_agree_when_enumerating_witness :
    ((MainParser.new ⟨"__", ",", true⟩).parse
        (Json.arr (.cons Json.null JsonList.nil))).1
      = JsonParser.parse ⟨⟨"__", ",", true⟩⟩ (Json.arr (.cons Json.null JsonList.nil)) :=
  C10_amended_agree_when_enumerating ⟨"__", ",", true⟩
    (Json.arr (.cons Json.null JsonList.nil)) rfl
